import Mathlib

/-!
# roswifibot: the control-loop core of `src/wifibot.cpp`

A shallow embedding of the class `Wifibot` (velocity decomposition, odometry
integration, the periodic `update`) and the properties of it that the
specification states.

## Conventions of the embedding

* A C `double` is an element of a linearly ordered field `α` with a floor
  function: arithmetic is exact (no rounding, no NaN, no infinity).  Every
  definition is generic in `α`; it runs on `ℚ` and it can be read on `ℝ`.
* `M_PI`, `cos` and `sin` come from `<math.h>`, which is not part of the
  repository; they are fields of a `Platform` record that the functions take as
  an argument.
* The conversion `(int)` of a `double` truncates toward zero.  C leaves it
  undefined when the truncated value does not fit a 32-bit `int`; the value the
  platform then yields is the field `intOverflow` of `Platform`, so a theorem
  that holds for every `Platform` holds whatever that value is.
* The conversion `(float)` of an `int` is exact integer arithmetic: IEEE-754
  single precision keeps 24 significant bits, so an `int` of magnitude above
  `2 ^ 24` is replaced by one of its two representable neighbours, the nearest
  one, ties to even, in the default rounding mode.  It is modelled as such
  (`castFloat`).
* A quotient by zero is `0` in a field and infinite or NaN in C, so a statement
  about a quotient by the track width `_entrax` assumes that it is not zero.
* The driver (`wifibot::Driver`) and the ROS publishers are external.  A call of
  `setSpeeds` and every published message is an `Output` emitted by `update`; the
  struct returned by `readData` and the clock value are arguments of `update`.
  The member `_odomTf` is the buffer of the transform sent within the same call;
  the model builds that message in place.
-/

/-- What `<math.h>` and the platform supply to the program. -/
structure Platform (α : Type) where
  /-- The constant `M_PI`. -/
  M_PI : α
  /-- The library function `cos`. -/
  cos : α → α
  /-- The library function `sin`. -/
  sin : α → α
  /-- The `int` produced by `(int) x` when the truncation of `x` is out of range. -/
  intOverflow : α → ℤ

/-- The member `_position`: a planar pose. -/
structure Position (α : Type) where
  x : α
  y : α
  th : α

/-- The fields of `wifibot::driverData` that `wifibot.cpp` reads. -/
structure driverData (α : Type) where
  voltage : α
  current : α
  adc : Fin 4 → α
  speedFrontLeft : α
  speedFrontRight : α
  odometryLeft : α
  odometryRight : α
  version : ℤ

/-- The message `roswifibot::Status` as `update` fills it. -/
structure Status (α : Type) where
  battery_level : α
  current : α
  ADC1 : α
  ADC2 : α
  ADC3 : α
  ADC4 : α
  speed_front_left : α
  speed_front_right : α
  odometry_left : α
  odometry_right : α
  version : ℤ
  relay1 : ℤ

/-- The transform `_odomTf` as `update` fills it; the rotation is recorded by the
yaw handed to `tf::createQuaternionMsgFromYaw`. -/
structure TransformStamped (α : Type) where
  stamp : ℕ
  frame_id : String
  child_frame_id : String
  translation_x : α
  translation_y : α
  translation_z : α
  rotation_yaw : α

/-- The message `nav_msgs::Odometry` as `update` fills it. -/
structure Odometry (α : Type) where
  stamp : ℕ
  frame_id : String
  child_frame_id : String
  position_x : α
  position_y : α
  position_z : α
  orientation_yaw : α
  twist_linear_x : α
  twist_linear_y : α
  twist_angular_z : α

/-- An effect of `update` on the outside world, in the order of emission. -/
inductive Output (α : Type) where
  /-- The call `_pDriver->setSpeeds(left, right)`. -/
  | setSpeeds (left right : α)
  /-- The call `_pubStatus.publish`. -/
  | status (m : Status α)
  /-- The call `_odomBroadcast.sendTransform`. -/
  | transform (m : TransformStamped α)
  /-- The call `_pubOdometry.publish`. -/
  | odometry (m : Odometry α)

/-- The data members of the class `Wifibot` (the handles to ROS and to the driver
are external). -/
structure Wifibot (α : Type) where
  _frameBase : String
  _entrax : α
  _updated : Bool
  _speedLeft : α
  _speedRight : α
  _position : Position α
  _odometryLeftLast : α
  _odometryRightLast : α
  _timeCurrent : ℕ
  _timeLast : ℕ

/-- What the subscriber and the timer deliver to the object, one after the other:
a `cmd_vel` message handled by `velocityCallback`, or one pass of the loop body,
which calls `update` with the sample `readData` returns and the clock value. -/
inductive Event (α : Type) where
  | cmd_vel (linear_x angular_z : α)
  | tick (st : driverData α) (now : ℕ)

namespace Wifibot

section Kinematics

variable {α : Type} [LinearOrderedField α]

/-- The macro `TWOPI`, `(M_PI * 2)`. -/
def TWOPI (E : Platform α) : α := E.M_PI * 2

/-- The method `Wifibot::getSpeedLinear`. -/
def getSpeedLinear (left right : α) : α := (right + left) / 2

/-- The method `Wifibot::getSpeedAngular`. -/
def getSpeedAngular (s : Wifibot α) (left right : α) : α := (right - left) / s._entrax

/-- The method `Wifibot::velocityCallback`, on the fields `linear.x` and
`angular.z` of the message. -/
def velocityCallback (s : Wifibot α) (linear_x angular_z : α) : Wifibot α :=
  { s with
    _speedLeft := linear_x - (angular_z * (s._entrax / 2))
    _speedRight := linear_x + (angular_z * (s._entrax / 2))
    _updated := true }

/-- The state the constructor `Wifibot::Wifibot` leaves before it enters its
loop: the parameters `base_frame` and `entrax` with their defaults, the encoder
baseline from the sample `st` read from the driver, the pose at the origin, the
two clock values read.  The configuration it sends to the driver is external. -/
def new (frameBase : Option String) (entrax : Option α) (st : driverData α)
    (timeCurrent timeLast : ℕ) : Wifibot α where
  _frameBase := frameBase.getD "base_frame"
  _entrax := entrax.getD (30 / 100)
  _updated := false
  _speedLeft := 0
  _speedRight := 0
  _position := ⟨0, 0, 0⟩
  _odometryLeftLast := st.odometryLeft
  _odometryRightLast := st.odometryRight
  _timeCurrent := timeCurrent
  _timeLast := timeLast

end Kinematics

/-- How many low bits a magnitude `m` loses to fit 24 significant bits; `fuel`
bounds the count (an `int` has 32 bits, so 8 is enough). -/
def excessBits : ℕ → ℕ → ℕ
  | 0, _ => 0
  | fuel + 1, m => if m < 16777216 then 0 else excessBits fuel (m / 2) + 1

/-- The magnitude of an `int` rounded to a single-precision float: 24
significant bits, round to nearest, ties to even. -/
def roundToSingle (m : ℕ) : ℕ :=
  let e := excessBits 8 m
  let q := m / 2 ^ e
  let r := m % 2 ^ e
  if 2 ^ e < 2 * r ∨ (2 * r = 2 ^ e ∧ q % 2 = 1) then (q + 1) * 2 ^ e else q * 2 ^ e

/-- The conversion `(float) n` of an `int`, as the integer it denotes. -/
def castFloat (n : ℤ) : ℤ := Int.sign n * (roundToSingle n.natAbs : ℤ)

section Odometry

variable {α : Type} [LinearOrderedField α] [FloorRing α]

/-- Truncation toward zero. -/
def truncate (x : α) : ℤ := if 0 ≤ x then ⌊x⌋ else ⌈x⌉

/-- The conversion `(int) x` of a `double`. -/
def castInt (E : Platform α) (x : α) : ℤ :=
  if -2147483648 ≤ truncate x ∧ truncate x ≤ 2147483647 then truncate x
  else E.intOverflow x

/-- Line 104 of `wifibot.cpp` as a function of the accumulated heading:
`th -= (float)((int)(th / TWOPI)) * TWOPI`. -/
def wrapHeading (E : Platform α) (th : α) : α :=
  th - ((castFloat (castInt E (th / TWOPI E)) : ℤ) : α) * TWOPI E

/-- The normalization the specification asks for in step 3 of its section 4.2,
written from its words and not from the code: the heading is brought into
`(-π, π]` by subtracting a multiple of 2π. -/
def specNormalize (E : Platform α) (th : α) : α :=
  th - ((⌈(th - E.M_PI) / TWOPI E⌉ : ℤ) : α) * TWOPI E

/-- The method `Wifibot::computeOdometry`. -/
def computeOdometry (E : Platform α) (s : Wifibot α) (left right : α) : Wifibot α :=
  let dleft := left - s._odometryLeftLast
  let dright := right - s._odometryRightLast
  let distance := getSpeedLinear dleft dright
  let th := wrapHeading E (s._position.th + s.getSpeedAngular dleft dright)
  let x := s._position.x + distance * E.cos th
  let y := s._position.y + distance * E.sin th
  { s with
    _position := ⟨x, y, th⟩
    _odometryLeftLast := left
    _odometryRightLast := right }

/-- The status message built by `update` from the sample. -/
def topicStatus (st : driverData α) : Status α where
  battery_level := st.voltage
  current := st.current
  ADC1 := st.adc 0
  ADC2 := st.adc 1
  ADC3 := st.adc 2
  ADC4 := st.adc 3
  speed_front_left := st.speedFrontLeft
  speed_front_right := st.speedFrontRight
  odometry_left := st.odometryLeft
  odometry_right := st.odometryRight
  version := st.version
  relay1 := 0

/-- The transform built by `update` from the members of the object. -/
def odomTf (s : Wifibot α) : TransformStamped α where
  stamp := s._timeCurrent
  frame_id := "/odom"
  child_frame_id := s._frameBase
  translation_x := s._position.x
  translation_y := s._position.y
  translation_z := 0
  rotation_yaw := s._position.th

/-- The odometry message built by `update` from the members of the object and the
raw wheel speeds of the sample. -/
def odometryTopic (s : Wifibot α) (st : driverData α) : Odometry α where
  stamp := s._timeCurrent
  frame_id := "/odom"
  child_frame_id := s._frameBase
  position_x := s._position.x
  position_y := s._position.y
  position_z := 0
  orientation_yaw := s._position.th
  twist_linear_x := getSpeedLinear st.speedFrontLeft st.speedFrontRight
  twist_linear_y := 0
  twist_angular_z := s.getSpeedAngular st.speedFrontLeft st.speedFrontRight

/-- The method `Wifibot::update`; `st` is what `_pDriver->readData()` returns and
`now` what `ros::Time::now()` returns.  The result is the object after the call
and the effects of the call in the order of emission. -/
def update (E : Platform α) (s : Wifibot α) (st : driverData α) (now : ℕ) :
    Wifibot α × List (Output α) :=
  let sent : List (Output α) :=
    if s._updated then [Output.setSpeeds s._speedLeft s._speedRight] else []
  let s1 : Wifibot α := { s with _updated := false }
  let s2 : Wifibot α := { s1 with _timeCurrent := now }
  let s3 := computeOdometry E s2 st.odometryLeft st.odometryRight
  ({ s3 with _timeLast := s3._timeCurrent },
    sent ++ [Output.status (topicStatus st), Output.transform (odomTf s3),
      Output.odometry (odometryTopic s3 st)])

/-- One event of the loop of the constructor, with the effects so far. -/
def step (E : Platform α) (w : Wifibot α × List (Output α)) :
    Event α → Wifibot α × List (Output α)
  | Event.cmd_vel v om => (velocityCallback w.1 v om, w.2)
  | Event.tick st now => ((update E w.1 st now).1, w.2 ++ (update E w.1 st now).2)

/-- The loop of the constructor over a finite sequence of events. -/
def run (E : Platform α) (s : Wifibot α) (evs : List (Event α)) :
    Wifibot α × List (Output α) :=
  evs.foldl (step E) (s, [])

/-- Successive calls of `computeOdometry`, one per pair of readings. -/
def integrate (E : Platform α) (s : Wifibot α) (readings : List (α × α)) : Wifibot α :=
  readings.foldl (fun t p => computeOdometry E t p.1 p.2) s

/-- The heading accumulated by a call of `computeOdometry` before line 104
wraps it. -/
def rawHeading (s : Wifibot α) (left right : α) : α :=
  s._position.th +
    s.getSpeedAngular (left - s._odometryLeftLast) (right - s._odometryRightLast)

/-- Every call of a sequence wraps a heading of fewer than `2 ^ 24` turns, the
range on which both conversions of line 104 are exact. -/
def CastsExact (E : Platform α) : Wifibot α → List (α × α) → Prop
  | _, [] => True
  | s, p :: rest =>
    |rawHeading s p.1 p.2 / TWOPI E| < 16777216 ∧
      CastsExact E (computeOdometry E s p.1 p.2) rest

/-- The condition `CastsExact` can be evaluated. -/
instance CastsExact.decidable (E : Platform α) :
    ∀ (s : Wifibot α) (readings : List (α × α)), Decidable (CastsExact E s readings)
  | _, [] => isTrue trivial
  | s, p :: rest =>
    haveI := CastsExact.decidable E (computeOdometry E s p.1 p.2) rest
    inferInstanceAs (Decidable (_ ∧ _))

end Odometry

section Effects

variable {α : Type}

/-- The arguments of the calls of `setSpeeds` among the effects. -/
def setSpeedsCalls : List (Output α) → List (α × α)
  | [] => []
  | Output.setSpeeds l r :: rest => (l, r) :: setSpeedsCalls rest
  | _ :: rest => setSpeedsCalls rest

/-- The pairs (linear x, angular z) of the twists of the odometry messages among
the effects. -/
def twists : List (Output α) → List (α × α)
  | [] => []
  | Output.odometry m :: rest => (m.twist_linear_x, m.twist_angular_z) :: twists rest
  | _ :: rest => twists rest

/-- Whether the latest event is a command, that is, whether a command has arrived
since the previous pass of the loop (since construction, before the first pass). -/
def commandPending : List (Event α) → Bool
  | [] => false
  | [Event.cmd_vel _ _] => true
  | [Event.tick _ _] => false
  | _ :: e :: rest => commandPending (e :: rest)

/-- A sequence of passes of the loop with no command in between. -/
def ticks (samples : List (driverData α × ℕ)) : List (Event α) :=
  samples.map (fun p => Event.tick p.1 p.2)

/-- The published messages among the effects. -/
def published : List (Output α) → List (Output α)
  | [] => []
  | Output.setSpeeds _ _ :: rest => published rest
  | o :: rest => o :: published rest

end Effects

/-- A platform on `ℚ` for evaluation: `M_PI` is the `double` nearest to π, the
polynomials stand for `cos` and `sin`, and an out-of-range conversion yields
`INT_MIN`. -/
def libmQ : Platform ℚ where
  M_PI := 884279719003555 / 281474976710656
  cos := fun x => 1 - x ^ 2 / 2
  sin := fun x => x - x ^ 3 / 6
  intOverflow := fun _ => -2147483648

/-- A sample whose encoder counts are `left` and `right`, all else zero. -/
def sampleQ (left right : ℚ) : driverData ℚ where
  voltage := 0
  current := 0
  adc := fun _ => 0
  speedFrontLeft := 0
  speedFrontRight := 0
  odometryLeft := left
  odometryRight := right
  version := 0

/-- The object after construction with track width 1 and encoders at zero. -/
def startQ : Wifibot ℚ := new none (some 1) (sampleQ 0 0) 0 0

end Wifibot

namespace Wifibot

/-! ## The conversions of line 104 -/

section

variable {α : Type} [LinearOrderedField α] [FloorRing α]

theorem roundToSingle_of_lt {m : ℕ} (h : m < 16777216) : roundToSingle m = m := by
  have he : excessBits 8 m = 0 := by simp [excessBits, h]
  simp [roundToSingle, he, Nat.mod_one]

theorem castFloat_of_abs_lt {n : ℤ} (h : |n| < 16777216) : castFloat n = n := by
  have hm : n.natAbs < 16777216 := by
    have hb := abs_lt.mp h
    omega
  rw [castFloat, roundToSingle_of_lt hm]
  exact Int.sign_mul_natAbs n

theorem truncate_of_nonneg {x : α} (h : 0 ≤ x) : truncate x = ⌊x⌋ := by
  simp [truncate, h]

theorem truncate_of_neg {x : α} (h : x < 0) : truncate x = ⌈x⌉ := by
  simp [truncate, not_le.mpr h]

theorem abs_truncate_le (x : α) : ((|truncate x| : ℤ) : α) ≤ |x| := by
  rcases le_or_lt 0 x with h | h
  · rw [truncate_of_nonneg h, abs_of_nonneg (Int.floor_nonneg.mpr h), abs_of_nonneg h]
    exact Int.floor_le x
  · have hc : ⌈x⌉ ≤ 0 := Int.ceil_le.mpr (by simpa using h.le)
    rw [truncate_of_neg h, abs_of_nonpos hc, abs_of_neg h]
    push_cast
    exact neg_le_neg (Int.le_ceil x)

theorem abs_truncate_lt {x : α} (h : |x| < 16777216) : |truncate x| < 16777216 := by
  have h1 := abs_truncate_le x
  have h2 : ((|truncate x| : ℤ) : α) < ((16777216 : ℤ) : α) := by
    push_cast
    exact lt_of_le_of_lt (by simpa using h1) h
  exact Int.cast_lt.mp h2

theorem castInt_of_abs_lt (E : Platform α) {x : α} (h : |x| < 16777216) :
    castInt E x = truncate x := by
  have h1 := abs_truncate_lt h
  have h2 := abs_lt.mp h1
  have : -2147483648 ≤ truncate x ∧ truncate x ≤ 2147483647 := by
    constructor <;> omega
  simp [castInt, this]

theorem wrapHeading_of_abs_lt (E : Platform α) {t : α} (h : |t / TWOPI E| < 16777216) :
    wrapHeading E t = t - (truncate (t / TWOPI E) : α) * TWOPI E := by
  rw [wrapHeading, castInt_of_abs_lt E h, castFloat_of_abs_lt (abs_truncate_lt h)]

omit [FloorRing α] in
theorem TWOPI_pos {E : Platform α} (hpi : 0 < E.M_PI) : 0 < TWOPI E := by
  unfold TWOPI; positivity

theorem wrapHeading_nonneg_range (E : Platform α) (hpi : 0 < E.M_PI) {t : α} (h0 : 0 ≤ t)
    (h : |t / TWOPI E| < 16777216) : 0 ≤ wrapHeading E t ∧ wrapHeading E t < TWOPI E := by
  have hT := TWOPI_pos hpi
  have hq : 0 ≤ t / TWOPI E := div_nonneg h0 hT.le
  rw [wrapHeading_of_abs_lt E h, truncate_of_nonneg hq]
  have h1 : (⌊t / TWOPI E⌋ : α) ≤ t / TWOPI E := Int.floor_le _
  have h2 : t / TWOPI E < ⌊t / TWOPI E⌋ + 1 := Int.lt_floor_add_one _
  have e : t = t / TWOPI E * TWOPI E := by field_simp
  constructor
  · nlinarith
  · nlinarith

theorem wrapHeading_nonpos_range (E : Platform α) (hpi : 0 < E.M_PI) {t : α} (h0 : t < 0)
    (h : |t / TWOPI E| < 16777216) : -TWOPI E < wrapHeading E t ∧ wrapHeading E t ≤ 0 := by
  have hT := TWOPI_pos hpi
  have hq : t / TWOPI E < 0 := div_neg_of_neg_of_pos h0 hT
  rw [wrapHeading_of_abs_lt E h, truncate_of_neg hq]
  have h1 : t / TWOPI E ≤ (⌈t / TWOPI E⌉ : α) := Int.le_ceil _
  have h2 : (⌈t / TWOPI E⌉ : α) < t / TWOPI E + 1 := Int.ceil_lt_add_one _
  have e : t = t / TWOPI E * TWOPI E := by field_simp
  constructor
  · nlinarith
  · nlinarith

theorem abs_wrapHeading_lt (E : Platform α) (hpi : 0 < E.M_PI) {t : α}
    (h : |t / TWOPI E| < 16777216) : |wrapHeading E t| < TWOPI E := by
  have hT := TWOPI_pos hpi
  rcases le_or_lt 0 t with h0 | h0
  · obtain ⟨a, b⟩ := wrapHeading_nonneg_range E hpi h0 h
    rw [abs_lt]; constructor <;> linarith
  · obtain ⟨a, b⟩ := wrapHeading_nonpos_range E hpi h0 h
    rw [abs_lt]; constructor <;> linarith

theorem truncate_eq_zero {x : α} (h : |x| < 1) : truncate x = 0 := by
  obtain ⟨a, b⟩ := abs_lt.mp h
  rcases le_or_lt 0 x with h0 | h0
  · rw [truncate_of_nonneg h0, Int.floor_eq_iff]; constructor <;> simp <;> assumption
  · rw [truncate_of_neg h0, Int.ceil_eq_iff]; constructor <;> simp <;> linarith

theorem wrapHeading_of_abs_lt_TWOPI (E : Platform α) (hpi : 0 < E.M_PI) {t : α}
    (h : |t| < TWOPI E) : wrapHeading E t = t := by
  have hT := TWOPI_pos hpi
  have hq : |t / TWOPI E| < 1 := by
    rw [abs_div, abs_of_pos hT, div_lt_one hT]; exact h
  have hq2 : |t / TWOPI E| < 16777216 := lt_trans hq (by norm_num)
  rw [wrapHeading_of_abs_lt E hq2, truncate_eq_zero hq]
  simp

theorem wrapHeading_sub_turns (E : Platform α) (t : α) :
    ∃ n : ℤ, wrapHeading E t = t - (n : α) * TWOPI E :=
  ⟨castFloat (castInt E (t / TWOPI E)), rfl⟩

theorem wrapHeading_eval (E : Platform α) (n : ℤ) {t : α} (h0 : 0 ≤ t / TWOPI E)
    (h1 : (n : α) ≤ t / TWOPI E) (h2 : t / TWOPI E < n + 1) (h3 : n ≤ 2147483647) :
    wrapHeading E t = t - ((castFloat n : ℤ) : α) * TWOPI E := by
  have hfl : ⌊t / TWOPI E⌋ = n := Int.floor_eq_iff.mpr ⟨h1, h2⟩
  have hn : 0 ≤ n := by rw [← hfl]; exact Int.floor_nonneg.mpr h0
  have htr : truncate (t / TWOPI E) = n := by rw [truncate_of_nonneg h0, hfl]
  have hrange : -2147483648 ≤ n ∧ n ≤ 2147483647 := ⟨by omega, h3⟩
  simp [wrapHeading, castInt, htr, hrange]

theorem specNormalize_range (E : Platform α) (hpi : 0 < E.M_PI) (t : α) :
    -E.M_PI < specNormalize E t ∧ specNormalize E t ≤ E.M_PI := by
  have hT := TWOPI_pos hpi
  have e : TWOPI E = 2 * E.M_PI := by unfold TWOPI; ring
  have h1 : (t - E.M_PI) / TWOPI E ≤ (⌈(t - E.M_PI) / TWOPI E⌉ : α) := Int.le_ceil _
  have h2 : (⌈(t - E.M_PI) / TWOPI E⌉ : α) < (t - E.M_PI) / TWOPI E + 1 :=
    Int.ceil_lt_add_one _
  have h3 : t - E.M_PI = (t - E.M_PI) / TWOPI E * TWOPI E := by field_simp
  unfold specNormalize
  constructor
  · nlinarith
  · nlinarith

end

/-! ## Calls of `computeOdometry` -/

section

variable {α : Type} [LinearOrderedField α] [FloorRing α]

theorem computeOdometry_th (E : Platform α) (s : Wifibot α) (left right : α) :
    (computeOdometry E s left right)._position.th = wrapHeading E (rawHeading s left right) :=
  rfl

theorem computeOdometry_same_readings (E : Platform α) (hpi : 0 < E.M_PI) (s : Wifibot α)
    (hth : |s._position.th| < TWOPI E) :
    computeOdometry E s s._odometryLeftLast s._odometryRightLast = s := by
  obtain ⟨fb, L, u, sl, sr, ⟨x, y, th⟩, ol, or, tc, tl⟩ := s
  have hw : wrapHeading E th = th := wrapHeading_of_abs_lt_TWOPI E hpi hth
  simp [computeOdometry, getSpeedLinear, getSpeedAngular, hw]

theorem computeOdometry_repeat_of_exact (E : Platform α) (hpi : 0 < E.M_PI) (s : Wifibot α)
    (left right : α) (hex : |rawHeading s left right / TWOPI E| < 16777216) :
    computeOdometry E (computeOdometry E s left right) left right
      = computeOdometry E s left right :=
  computeOdometry_same_readings E hpi (computeOdometry E s left right)
    (by rw [computeOdometry_th]; exact abs_wrapHeading_lt E hpi hex)

theorem straight_step_of_bounded (E : Platform α) (hpi : 0 < E.M_PI) (s : Wifibot α) (d : α)
    (hth : |s._position.th| < TWOPI E) :
    (computeOdometry E s (s._odometryLeftLast + d) (s._odometryRightLast + d))._position.th
      = s._position.th ∧
    (computeOdometry E s (s._odometryLeftLast + d) (s._odometryRightLast + d))._position.x
      = s._position.x + d * E.cos s._position.th ∧
    (computeOdometry E s (s._odometryLeftLast + d) (s._odometryRightLast + d))._position.y
      = s._position.y + d * E.sin s._position.th := by
  have hw : wrapHeading E s._position.th = s._position.th :=
    wrapHeading_of_abs_lt_TWOPI E hpi hth
  have hl : s._odometryLeftLast + d - s._odometryLeftLast = d := by ring
  have hr : s._odometryRightLast + d - s._odometryRightLast = d := by ring
  have hlin : getSpeedLinear d d = d := by simp only [getSpeedLinear]; ring
  have hang : s.getSpeedAngular d d = 0 := by simp [getSpeedAngular]
  refine ⟨?_, ?_, ?_⟩ <;> simp only [computeOdometry, hl, hr, hlin, hang, add_zero, hw]

theorem integrate_heading_bound (E : Platform α) (hpi : 0 < E.M_PI)
    (readings : List (α × α)) :
    ∀ (s : Wifibot α) (k : ℕ), |s._position.th| < TWOPI E → CastsExact E s readings →
      |(integrate E s (readings.take k))._position.th| < TWOPI E := by
  induction readings with
  | nil => intro s k hs _; simpa [integrate] using hs
  | cons p rest ih =>
    intro s k hs hex
    cases k with
    | zero => simpa [integrate] using hs
    | succ k =>
      have hstep : |(computeOdometry E s p.1 p.2)._position.th| < TWOPI E := by
        rw [computeOdometry_th]
        exact abs_wrapHeading_lt E hpi hex.1
      have := ih (computeOdometry E s p.1 p.2) k hstep hex.2
      simpa [integrate] using this

end

/-! ## The effects of `update` and the loop -/

section

variable {α : Type}

theorem setSpeedsCalls_append (a b : List (Output α)) :
    setSpeedsCalls (a ++ b) = setSpeedsCalls a ++ setSpeedsCalls b := by
  induction a with
  | nil => rfl
  | cons o rest ih => cases o <;> simp [setSpeedsCalls, ih]

theorem commandPending_append_cmd (evs : List (Event α)) (v w : α) :
    commandPending (evs ++ [Event.cmd_vel v w]) = true := by
  induction evs with
  | nil => rfl
  | cons e rest ih =>
    cases rest with
    | nil => simp [commandPending]
    | cons e2 rest2 => simpa [commandPending] using ih

theorem commandPending_append_tick (evs : List (Event α)) (st : driverData α) (now : ℕ) :
    commandPending (evs ++ [Event.tick st now]) = false := by
  induction evs with
  | nil => rfl
  | cons e rest ih =>
    cases rest with
    | nil => simp [commandPending]
    | cons e2 rest2 => simpa [commandPending] using ih

end

section

variable {α : Type} [LinearOrderedField α] [FloorRing α]

theorem update_updated (E : Platform α) (s : Wifibot α) (st : driverData α) (now : ℕ) :
    (update E s st now).1._updated = false := rfl

theorem update_setSpeedsCalls (E : Platform α) (s : Wifibot α) (st : driverData α) (now : ℕ) :
    setSpeedsCalls (update E s st now).2
      = if s._updated then [(s._speedLeft, s._speedRight)] else [] := by
  cases h : s._updated <;> simp [update, h, setSpeedsCalls]

theorem update_published (E : Platform α) (s : Wifibot α) (st : driverData α) (now : ℕ) :
    ∃ a b c, published (update E s st now).2
      = [Output.status a, Output.transform b, Output.odometry c] := by
  cases h : s._updated <;> simp [update, h, published]

theorem update_state (E : Platform α) (s : Wifibot α) (st : driverData α) (now : ℕ) :
    (update E s st now).1
      = { computeOdometry E s st.odometryLeft st.odometryRight with
          _updated := false, _timeCurrent := now, _timeLast := now } := rfl

theorem run_append (E : Platform α) (s : Wifibot α) (evs : List (Event α)) (e : Event α) :
    run E s (evs ++ [e]) = step E (run E s evs) e := by
  simp [run, List.foldl_append]

theorem run_updated (E : Platform α) (s : Wifibot α) (hs : s._updated = false)
    (evs : List (Event α)) : (run E s evs).1._updated = commandPending evs := by
  induction evs using List.reverseRecOn with
  | nil => simpa [run, commandPending] using hs
  | append_singleton evs e _ =>
    rw [run_append]
    cases e with
    | cmd_vel v w => rw [commandPending_append_cmd]; rfl
    | tick st now => rw [commandPending_append_tick]; rfl

theorem foldl_ticks_calls (E : Platform α) (samples : List (driverData α × ℕ)) :
    ∀ (w : Wifibot α × List (Output α)), w.1._updated = false →
      setSpeedsCalls ((ticks samples).foldl (step E) w).2 = setSpeedsCalls w.2 := by
  induction samples with
  | nil => intro w _; rfl
  | cons p rest ih =>
    intro w hw
    simp only [ticks, List.map_cons, List.foldl_cons]
    have := ih (step E w (Event.tick p.1 p.2)) (update_updated E w.1 p.1 p.2)
    simp only [ticks] at this
    rw [this]
    simp [step, setSpeedsCalls_append, update_setSpeedsCalls, hw]

end

/-! ## Evaluation on `ℚ` -/

section

variable {α : Type} [LinearOrderedField α] [FloorRing α]

theorem libmQ_pi_pos : 0 < libmQ.M_PI := by norm_num [libmQ]

theorem startQ_rawHeading (right : ℚ) : rawHeading startQ 0 right = right := by
  simp [rawHeading, getSpeedAngular, startQ, new, sampleQ]

theorem wrapHeading_libmQ_small {t : ℚ} (h : |t| < TWOPI libmQ) : wrapHeading libmQ t = t :=
  wrapHeading_of_abs_lt_TWOPI libmQ libmQ_pi_pos h

theorem wrapHeading_libmQ_big :
    wrapHeading libmQ (67108867 * libmQ.M_PI) = 3 * libmQ.M_PI := by
  have hq : 67108867 * libmQ.M_PI / TWOPI libmQ = 67108867 / 2 := by
    norm_num [TWOPI, libmQ]
  have hc : castFloat 33554433 = 33554432 := by decide
  rw [wrapHeading_eval libmQ 33554433 (by rw [hq]; norm_num) (by rw [hq]; norm_num)
    (by rw [hq]; norm_num) (by norm_num), hc]
  norm_num [TWOPI, libmQ]

theorem wrapHeading_libmQ_three : wrapHeading libmQ (3 * libmQ.M_PI) = libmQ.M_PI := by
  have hq : 3 * libmQ.M_PI / TWOPI libmQ = 3 / 2 := by
    norm_num [TWOPI, libmQ]
  have hc : castFloat 1 = 1 := by decide
  rw [wrapHeading_eval libmQ 1 (by rw [hq]; norm_num) (by rw [hq]; norm_num)
    (by rw [hq]; norm_num) (by norm_num), hc]
  norm_num [TWOPI, libmQ]

theorem quarterTurn_one :
    (computeOdometry libmQ startQ 0 (libmQ.M_PI / 2))._position.th = libmQ.M_PI / 2 := by
  rw [computeOdometry_th, startQ_rawHeading]
  exact wrapHeading_libmQ_small (by norm_num [TWOPI, libmQ, abs_lt])

theorem quarterTurn_two :
    (computeOdometry libmQ (computeOdometry libmQ startQ 0 (libmQ.M_PI / 2))
      0 libmQ.M_PI)._position.th = libmQ.M_PI := by
  have hr : rawHeading (computeOdometry libmQ startQ 0 (libmQ.M_PI / 2)) 0 libmQ.M_PI
      = libmQ.M_PI := by
    rw [rawHeading, quarterTurn_one]
    simp [computeOdometry, getSpeedAngular, startQ, new]
  rw [computeOdometry_th, hr]
  exact wrapHeading_libmQ_small (by norm_num [TWOPI, libmQ, abs_lt])

theorem quarterTurn_three_raw :
    rawHeading (computeOdometry libmQ (computeOdometry libmQ startQ 0 (libmQ.M_PI / 2))
      0 libmQ.M_PI) 0 (3 * libmQ.M_PI / 2) = 3 * libmQ.M_PI / 2 := by
  rw [rawHeading, quarterTurn_two]
  simp [computeOdometry, getSpeedAngular, startQ, new]

theorem quarterTurn_three :
    (computeOdometry libmQ (computeOdometry libmQ (computeOdometry libmQ startQ
      0 (libmQ.M_PI / 2)) 0 libmQ.M_PI) 0 (3 * libmQ.M_PI / 2))._position.th
      = 3 * libmQ.M_PI / 2 := by
  rw [computeOdometry_th, quarterTurn_three_raw]
  exact wrapHeading_libmQ_small (by norm_num [TWOPI, libmQ, abs_lt])

theorem quarterTurns_exact :
    CastsExact libmQ startQ
      [(0, libmQ.M_PI / 2), (0, libmQ.M_PI), (0, 3 * libmQ.M_PI / 2)] := by
  refine ⟨?_, ?_, ?_, trivial⟩
  · rw [startQ_rawHeading]; norm_num [TWOPI, libmQ, abs_lt]
  · have hr : rawHeading (computeOdometry libmQ startQ 0 (libmQ.M_PI / 2)) 0 libmQ.M_PI
        = libmQ.M_PI := by
      rw [rawHeading, quarterTurn_one]
      simp [computeOdometry, getSpeedAngular, startQ, new]
    show |rawHeading (computeOdometry libmQ startQ 0 (libmQ.M_PI / 2)) 0 libmQ.M_PI
      / TWOPI libmQ| < 16777216
    rw [hr]; norm_num [TWOPI, libmQ, abs_lt]
  · show |rawHeading (computeOdometry libmQ (computeOdometry libmQ startQ 0 (libmQ.M_PI / 2))
      0 libmQ.M_PI) 0 (3 * libmQ.M_PI / 2) / TWOPI libmQ| < 16777216
    rw [quarterTurn_three_raw]; norm_num [TWOPI, libmQ, abs_lt]

end

/-! ## The properties of the specification -/

section

variable {α : Type} [LinearOrderedField α] [FloorRing α]

/-- C1: `velocityCallback` stores the setpoint `left = v - w*L/2`,
`right = v + w*L/2`, whose sum is `2*v` and whose difference is `w*L`; with the
default track width 0.30 the command `(1, 0)` gives `(1, 1)` and the command
`(0, π)` gives `(-0.15*π, 0.15*π)`, within 0.0005 of `(-0.471, 0.471)`. -/
theorem velocityCallback_setpoint :
    (∀ (α : Type) [LinearOrderedField α] (s : Wifibot α) (v w : α),
      (velocityCallback s v w)._speedLeft = v - w * s._entrax / 2 ∧
      (velocityCallback s v w)._speedRight = v + w * s._entrax / 2 ∧
      (velocityCallback s v w)._speedLeft + (velocityCallback s v w)._speedRight = 2 * v ∧
      (velocityCallback s v w)._speedRight - (velocityCallback s v w)._speedLeft
        = w * s._entrax ∧
      (velocityCallback s v w)._updated = true) ∧
    (∀ (frameBase : Option String) (st : driverData ℝ) (now now2 : ℕ),
      (new frameBase none st now now2)._entrax = 0.30 ∧
      (velocityCallback (new frameBase none st now now2) 1 0)._speedLeft = 1 ∧
      (velocityCallback (new frameBase none st now now2) 1 0)._speedRight = 1 ∧
      (velocityCallback (new frameBase none st now now2) 0 Real.pi)._speedLeft
        = -(0.15 * Real.pi) ∧
      (velocityCallback (new frameBase none st now now2) 0 Real.pi)._speedRight
        = 0.15 * Real.pi ∧
      |(velocityCallback (new frameBase none st now now2) 0 Real.pi)._speedLeft - (-0.471)|
        < 0.0005 ∧
      |(velocityCallback (new frameBase none st now now2) 0 Real.pi)._speedRight - 0.471|
        < 0.0005) := by
  refine ⟨?_, ?_⟩
  · intro α _ s v w
    simp only [velocityCallback]
    refine ⟨by ring, by ring, by ring, by ring, trivial⟩
  · intro frameBase st now now2
    have h1 := Real.pi_gt_d4
    have h2 := Real.pi_lt_d4
    simp only [velocityCallback, new, Option.getD_none]
    refine ⟨by norm_num, by norm_num, by norm_num, by ring, by ring, ?_, ?_⟩
    · rw [abs_lt]; constructor <;> norm_num <;> linarith
    · rw [abs_lt]; constructor <;> norm_num <;> linarith

/-- C2 fails at the third of the quarter-turn increments: from the constructed
state with track width 1 the readings `(0, M_PI/2)`, `(0, M_PI)`, `(0, 3*M_PI/2)`
leave the heading `3*M_PI/2`, outside `(-M_PI, M_PI]` and above π. -/
theorem heading_exceeds_pi :
    (integrate libmQ startQ
      [(0, libmQ.M_PI / 2), (0, libmQ.M_PI), (0, 3 * libmQ.M_PI / 2)])._position.th
      = 3 * libmQ.M_PI / 2 ∧
    ¬ (-libmQ.M_PI < (integrate libmQ startQ
        [(0, libmQ.M_PI / 2), (0, libmQ.M_PI), (0, 3 * libmQ.M_PI / 2)])._position.th ∧
      (integrate libmQ startQ
        [(0, libmQ.M_PI / 2), (0, libmQ.M_PI), (0, 3 * libmQ.M_PI / 2)])._position.th
        ≤ libmQ.M_PI) ∧
    Real.pi < (((integrate libmQ startQ
      [(0, libmQ.M_PI / 2), (0, libmQ.M_PI), (0, 3 * libmQ.M_PI / 2)])._position.th : ℚ) : ℝ)
    := by
  have h : (integrate libmQ startQ
      [(0, libmQ.M_PI / 2), (0, libmQ.M_PI), (0, 3 * libmQ.M_PI / 2)])._position.th
      = 3 * libmQ.M_PI / 2 := quarterTurn_three
  refine ⟨h, ?_, ?_⟩
  · rw [h]
    norm_num [libmQ]
  · rw [h]
    have hpi := Real.pi_lt_d2
    have hv : (4 : ℝ) < ((3 * libmQ.M_PI / 2 : ℚ) : ℝ) := by
      norm_num [libmQ]
    linarith

/-- C2, as the code has it: from a pose with heading 0, for a track width
`L > 0` and every sequence of readings whose calls each wrap a heading of fewer
than `2 ^ 24` turns, the stored heading lies in the open interval
`(-2*M_PI, 2*M_PI)` after every call. -/
theorem heading_within_two_pi (E : Platform α) (s : Wifibot α) (readings : List (α × α))
    (k : ℕ) (hpi : 0 < E.M_PI) (hL : 0 < s._entrax) (h0 : s._position.th = 0)
    (hex : CastsExact E s readings) :
    -(2 * E.M_PI) < (integrate E s (readings.take k))._position.th ∧
    (integrate E s (readings.take k))._position.th < 2 * E.M_PI := by
  have hs : |s._position.th| < TWOPI E := by
    rw [h0, abs_zero]; exact TWOPI_pos hpi
  have h := abs_lt.mp (integrate_heading_bound E hpi readings s k hs hex)
  have e : TWOPI E = 2 * E.M_PI := by unfold TWOPI; ring
  rw [e] at h
  exact h

/-- Witness of `heading_within_two_pi`: the three quarter turns. -/
theorem heading_within_two_pi_witness :
    0 < libmQ.M_PI ∧ 0 < startQ._entrax ∧ startQ._position.th = 0 ∧
    CastsExact libmQ startQ
      [(0, libmQ.M_PI / 2), (0, libmQ.M_PI), (0, 3 * libmQ.M_PI / 2)] ∧
    (-(2 * libmQ.M_PI) < (integrate libmQ startQ
        (([(0, libmQ.M_PI / 2), (0, libmQ.M_PI), (0, 3 * libmQ.M_PI / 2)] :
          List (ℚ × ℚ)).take 3))._position.th ∧
      (integrate libmQ startQ
        (([(0, libmQ.M_PI / 2), (0, libmQ.M_PI), (0, 3 * libmQ.M_PI / 2)] :
          List (ℚ × ℚ)).take 3))._position.th < 2 * libmQ.M_PI) :=
  ⟨libmQ_pi_pos, by norm_num [startQ, new], rfl, quarterTurns_exact,
    heading_within_two_pi libmQ startQ _ 3 libmQ_pi_pos (by norm_num [startQ, new]) rfl
      quarterTurns_exact⟩

/-- C3 fails at the constructed state with track width 1 and the readings
`(0, 67108867 * M_PI)`: the first call stores the heading `3 * M_PI` (the float
conversion of line 104 rounds 33554433 turns to 33554432), and the second call
with the same readings wraps it again and stores `M_PI`. -/
theorem computeOdometry_repeat_changes_heading :
    (computeOdometry libmQ startQ 0 (67108867 * libmQ.M_PI))._position.th
      = 3 * libmQ.M_PI ∧
    (computeOdometry libmQ (computeOdometry libmQ startQ 0 (67108867 * libmQ.M_PI))
      0 (67108867 * libmQ.M_PI))._position.th = libmQ.M_PI ∧
    computeOdometry libmQ (computeOdometry libmQ startQ 0 (67108867 * libmQ.M_PI))
      0 (67108867 * libmQ.M_PI) ≠ computeOdometry libmQ startQ 0 (67108867 * libmQ.M_PI) := by
  have h1 : (computeOdometry libmQ startQ 0 (67108867 * libmQ.M_PI))._position.th
      = 3 * libmQ.M_PI := by
    rw [computeOdometry_th, startQ_rawHeading, wrapHeading_libmQ_big]
  have h2 : (computeOdometry libmQ (computeOdometry libmQ startQ 0 (67108867 * libmQ.M_PI))
      0 (67108867 * libmQ.M_PI))._position.th = libmQ.M_PI := by
    rw [computeOdometry_th]
    have hr : rawHeading (computeOdometry libmQ startQ 0 (67108867 * libmQ.M_PI))
        0 (67108867 * libmQ.M_PI) = 3 * libmQ.M_PI := by
      rw [rawHeading, h1]
      simp [computeOdometry, getSpeedAngular]
    rw [hr, wrapHeading_libmQ_three]
  refine ⟨h1, h2, ?_⟩
  intro h
  have h3 := congrArg (fun s => s._position.th) h
  simp only [h1, h2] at h3
  norm_num [libmQ] at h3

/-- C4: in the loop over commands and ticks, a tick calls `setSpeeds` exactly
once, with the stored setpoint, if a command has arrived since the previous tick
and not at all otherwise; the flag is clear after every tick; a command followed
by one or more ticks (five, say) with no further command produces exactly one
call of `setSpeeds`. -/
theorem tick_sends_setpoint_once (E : Platform α) (frameBase : Option String)
    (entrax : Option α) (st0 : driverData α) (now0 now1 : ℕ) (evs : List (Event α))
    (s : Wifibot α) (st : driverData α) (now : ℕ) (v w : α)
    (t t1 t2 t3 t4 t5 : driverData α × ℕ) (ts : List (driverData α × ℕ)) :
    setSpeedsCalls (update E s st now).2
      = (if s._updated then [(s._speedLeft, s._speedRight)] else []) ∧
    (update E s st now).1._updated = false ∧
    (run E (new frameBase entrax st0 now0 now1) evs).1._updated = commandPending evs ∧
    (setSpeedsCalls (update E (run E (new frameBase entrax st0 now0 now1) evs).1 st now).2).length
      = (if commandPending evs then 1 else 0) ∧
    (run E (new frameBase entrax st0 now0 now1) (evs ++ [Event.tick st now])).2
      = (run E (new frameBase entrax st0 now0 now1) evs).2
          ++ (update E (run E (new frameBase entrax st0 now0 now1) evs).1 st now).2 ∧
    setSpeedsCalls (run E s (Event.cmd_vel v w :: ticks (t :: ts))).2
      = [(v - w * (s._entrax / 2), v + w * (s._entrax / 2))] ∧
    (setSpeedsCalls (run E s (Event.cmd_vel v w :: ticks [t1, t2, t3, t4, t5])).2).length
      = 1 := by
  have hrun : ∀ (t : driverData α × ℕ) (ts : List (driverData α × ℕ)),
      setSpeedsCalls (run E s (Event.cmd_vel v w :: ticks (t :: ts))).2
        = [(v - w * (s._entrax / 2), v + w * (s._entrax / 2))] := by
    intro t ts
    simp only [run, ticks, List.map_cons, List.foldl_cons]
    have h := foldl_ticks_calls E ts
      (step E (step E (s, []) (Event.cmd_vel v w)) (Event.tick t.1 t.2))
      (update_updated E _ t.1 t.2)
    simp only [ticks] at h
    rw [h]
    simp [step, update_setSpeedsCalls, velocityCallback]
  have hflag := run_updated E (new frameBase entrax st0 now0 now1) rfl evs
  refine ⟨update_setSpeedsCalls E s st now, rfl, hflag, ?_, ?_, hrun t ts, ?_⟩
  · rw [update_setSpeedsCalls, hflag]
    cases commandPending evs <;> simp
  · rw [run_append]; rfl
  · rw [hrun t1 [t2, t3, t4, t5]]; rfl

/-- C6 fails at `d = 1` with track width 1: the deltas `dLeft = 1`,
`dRight = -1` give `dTheta = -2`, not `2*d/L = 2`, and the step stores the
heading `-2`, where the heading change `2*d/L` would store `2`. -/
theorem pure_rotation_sign :
    startQ.getSpeedAngular
      (startQ._odometryLeftLast + 1 - startQ._odometryLeftLast)
      (startQ._odometryRightLast - 1 - startQ._odometryRightLast) = -2 ∧
    startQ.getSpeedAngular
      (startQ._odometryLeftLast + 1 - startQ._odometryLeftLast)
      (startQ._odometryRightLast - 1 - startQ._odometryRightLast)
      ≠ 2 * 1 / startQ._entrax ∧
    (computeOdometry libmQ startQ (startQ._odometryLeftLast + 1)
      (startQ._odometryRightLast - 1))._position.th = -2 ∧
    wrapHeading libmQ (startQ._position.th + 2 * 1 / startQ._entrax) = 2 := by
  have ha : startQ.getSpeedAngular
      (startQ._odometryLeftLast + 1 - startQ._odometryLeftLast)
      (startQ._odometryRightLast - 1 - startQ._odometryRightLast) = -2 := by
    norm_num [getSpeedAngular, startQ, new, sampleQ]
  have h0 : startQ._position.th = 0 := rfl
  refine ⟨ha, ?_, ?_, ?_⟩
  · rw [ha]; norm_num [startQ, new]
  · rw [computeOdometry_th, rawHeading, ha, h0, zero_add]
    exact wrapHeading_libmQ_small (by norm_num [TWOPI, libmQ, abs_lt])
  · have hv : startQ._position.th + 2 * 1 / startQ._entrax = 2 := by
      norm_num [startQ, new]
    rw [hv]
    exact wrapHeading_libmQ_small (by norm_num [TWOPI, libmQ, abs_lt])

/-- C6, as the code has it: a step whose deltas are `dLeft = d`, `dRight = -d`
(track width `L > 0`) has `distance = 0` and `dTheta = -2*d/L`, leaves `x` and
`y` unchanged and stores the heading `wrapHeading (heading - 2*d/L)`. -/
theorem pure_rotation (E : Platform α) (s : Wifibot α) (d : α) (hL : 0 < s._entrax) :
    getSpeedLinear d (-d) = 0 ∧
    s.getSpeedAngular d (-d) = -(2 * d / s._entrax) ∧
    (computeOdometry E s (s._odometryLeftLast + d) (s._odometryRightLast - d))._position.x
      = s._position.x ∧
    (computeOdometry E s (s._odometryLeftLast + d) (s._odometryRightLast - d))._position.y
      = s._position.y ∧
    (computeOdometry E s (s._odometryLeftLast + d) (s._odometryRightLast - d))._position.th
      = wrapHeading E (s._position.th + -(2 * d / s._entrax)) := by
  have hlin : getSpeedLinear d (-d) = 0 := by simp [getSpeedLinear]
  have hang : s.getSpeedAngular d (-d) = -(2 * d / s._entrax) := by
    simp only [getSpeedAngular]; field_simp; ring
  have hl : s._odometryLeftLast + d - s._odometryLeftLast = d := by ring
  have hr : s._odometryRightLast - d - s._odometryRightLast = -d := by ring
  refine ⟨hlin, hang, ?_, ?_, ?_⟩
  · simp only [computeOdometry, hl, hr, hlin]; ring
  · simp only [computeOdometry, hl, hr, hlin]; ring
  · simp only [computeOdometry, hl, hr, hang]

/-- Witness of `pure_rotation`: `d = 1` at the constructed state. -/
theorem pure_rotation_witness :
    0 < startQ._entrax ∧ startQ.getSpeedAngular 1 (-1) = -(2 * 1 / startQ._entrax) ∧
    (computeOdometry libmQ startQ (startQ._odometryLeftLast + 1)
      (startQ._odometryRightLast - 1))._position.x = startQ._position.x :=
  ⟨by norm_num [startQ, new],
    (pure_rotation libmQ startQ 1 (by norm_num [startQ, new])).2.1,
    (pure_rotation libmQ startQ 1 (by norm_num [startQ, new])).2.2.1⟩

/-- C7 fails at the state reached from the constructed one (track width 1) by
the call `computeOdometry(0, 67108867 * M_PI)`, whose heading is `3 * M_PI`: a
straight step with `dLeft = dRight = 1` has `dTheta = 0` and yet stores the
heading `M_PI`. -/
theorem straight_step_changes_heading :
    (integrate libmQ startQ [(0, 67108867 * libmQ.M_PI)])._position.th = 3 * libmQ.M_PI ∧
    (integrate libmQ startQ [(0, 67108867 * libmQ.M_PI)]).getSpeedAngular
      ((integrate libmQ startQ [(0, 67108867 * libmQ.M_PI)])._odometryLeftLast + 1
        - (integrate libmQ startQ [(0, 67108867 * libmQ.M_PI)])._odometryLeftLast)
      ((integrate libmQ startQ [(0, 67108867 * libmQ.M_PI)])._odometryRightLast + 1
        - (integrate libmQ startQ [(0, 67108867 * libmQ.M_PI)])._odometryRightLast) = 0 ∧
    (computeOdometry libmQ (integrate libmQ startQ [(0, 67108867 * libmQ.M_PI)])
      ((integrate libmQ startQ [(0, 67108867 * libmQ.M_PI)])._odometryLeftLast + 1)
      ((integrate libmQ startQ [(0, 67108867 * libmQ.M_PI)])._odometryRightLast + 1)
      )._position.th = libmQ.M_PI ∧
    (computeOdometry libmQ (integrate libmQ startQ [(0, 67108867 * libmQ.M_PI)])
      ((integrate libmQ startQ [(0, 67108867 * libmQ.M_PI)])._odometryLeftLast + 1)
      ((integrate libmQ startQ [(0, 67108867 * libmQ.M_PI)])._odometryRightLast + 1)
      )._position.th ≠ (integrate libmQ startQ [(0, 67108867 * libmQ.M_PI)])._position.th := by
  have hi : integrate libmQ startQ [(0, 67108867 * libmQ.M_PI)]
      = computeOdometry libmQ startQ 0 (67108867 * libmQ.M_PI) := rfl
  have h1 : (computeOdometry libmQ startQ 0 (67108867 * libmQ.M_PI))._position.th
      = 3 * libmQ.M_PI := by
    rw [computeOdometry_th, startQ_rawHeading, wrapHeading_libmQ_big]
  have hang : (computeOdometry libmQ startQ 0 (67108867 * libmQ.M_PI)).getSpeedAngular
      ((computeOdometry libmQ startQ 0 (67108867 * libmQ.M_PI))._odometryLeftLast + 1
        - (computeOdometry libmQ startQ 0 (67108867 * libmQ.M_PI))._odometryLeftLast)
      ((computeOdometry libmQ startQ 0 (67108867 * libmQ.M_PI))._odometryRightLast + 1
        - (computeOdometry libmQ startQ 0 (67108867 * libmQ.M_PI))._odometryRightLast) = 0 := by
    simp [getSpeedAngular]
  have h2 : (computeOdometry libmQ (computeOdometry libmQ startQ 0 (67108867 * libmQ.M_PI))
      ((computeOdometry libmQ startQ 0 (67108867 * libmQ.M_PI))._odometryLeftLast + 1)
      ((computeOdometry libmQ startQ 0 (67108867 * libmQ.M_PI))._odometryRightLast + 1)
      )._position.th = libmQ.M_PI := by
    rw [computeOdometry_th, rawHeading, hang, h1, add_zero, wrapHeading_libmQ_three]
  rw [hi]
  refine ⟨h1, hang, h2, ?_⟩
  rw [h1, h2]
  norm_num [libmQ]

/-- C8: the twist `update` publishes is computed from the raw wheel speeds of the
sample alone, `linear = (speedLeft + speedRight)/2` and
`angular = (speedRight - speedLeft)/L`, whatever the pose and the encoder
baseline; and for `L ≠ 0` the two functions invert the velocity decomposition:
on the setpoint of the command `(v, w)` they return `v` and `w`. -/
theorem telemetry_velocity (E : Platform α) (s : Wifibot α) (st : driverData α) (now : ℕ)
    (p : Position α) (l r v w : α) (hL : s._entrax ≠ 0) :
    twists (update E s st now).2
      = [((st.speedFrontLeft + st.speedFrontRight) / 2,
          (st.speedFrontRight - st.speedFrontLeft) / s._entrax)] ∧
    twists (update E
        { s with _position := p, _odometryLeftLast := l, _odometryRightLast := r } st now).2
      = twists (update E s st now).2 ∧
    getSpeedLinear (v - w * s._entrax / 2) (v + w * s._entrax / 2) = v ∧
    s.getSpeedAngular (v - w * s._entrax / 2) (v + w * s._entrax / 2) = w ∧
    getSpeedLinear (velocityCallback s v w)._speedLeft (velocityCallback s v w)._speedRight
      = v ∧
    s.getSpeedAngular (velocityCallback s v w)._speedLeft
      (velocityCallback s v w)._speedRight = w := by
  have htw : ∀ s' : Wifibot α, twists (update E s' st now).2
      = [((st.speedFrontLeft + st.speedFrontRight) / 2,
          (st.speedFrontRight - st.speedFrontLeft) / s'._entrax)] := by
    intro s'
    cases h : s'._updated <;>
      simp [update, h, twists, odometryTopic, getSpeedLinear, getSpeedAngular,
        computeOdometry, add_comm]
  refine ⟨htw s, ?_, ?_, ?_, ?_, ?_⟩
  · rw [htw, htw]
  · simp only [getSpeedLinear]; ring
  · simp only [getSpeedAngular]; field_simp
  · simp only [getSpeedLinear, velocityCallback]; ring
  · simp only [getSpeedAngular, velocityCallback]; field_simp

/-- Witness of `telemetry_velocity`: the command `(1, 2)` at the constructed
state. -/
theorem telemetry_velocity_witness :
    startQ._entrax ≠ 0 ∧
    getSpeedLinear (1 - 2 * startQ._entrax / 2) (1 + 2 * startQ._entrax / 2) = 1 ∧
    startQ.getSpeedAngular (1 - 2 * startQ._entrax / 2) (1 + 2 * startQ._entrax / 2) = 2 :=
  ⟨by norm_num [startQ, new],
    (telemetry_velocity libmQ startQ (sampleQ 0 0) 0 startQ._position 0 0 1 2
      (by norm_num [startQ, new])).2.2.1,
    (telemetry_velocity libmQ startQ (sampleQ 0 0) 0 startQ._position 0 0 1 2
      (by norm_num [startQ, new])).2.2.2.1⟩

/-- C9 fails at the constructed state and a sample that repeats the baseline,
the most a failed poll can hand back: the tick publishes three messages; and no
state and no sample make a tick publish nothing. -/
theorem update_publishes_unconditionally :
    (published (update libmQ startQ (sampleQ 0 0) 1).2).length = 3 ∧
    (∀ (s : Wifibot ℚ) (st : driverData ℚ) (now : ℕ),
      published (update libmQ s st now).2 ≠ []) := by
  refine ⟨?_, ?_⟩
  · obtain ⟨a, b, c, h⟩ := update_published libmQ startQ (sampleQ 0 0) 1
    rw [h]; rfl
  · intro s st now
    obtain ⟨a, b, c, h⟩ := update_published libmQ s st now
    rw [h]; simp

/-- C9, as the code has it: `update` has no failure path.  Whatever sample
`readData` returns, the tick publishes one status message, one transform and one
odometry message and makes the encoder counts of the sample the baseline.  When
the sample repeats the baseline counts (track width `L > 0`, heading inside
`(-2*M_PI, 2*M_PI)`), the pose and the baseline are left unchanged, and the next
tick integrates its readings against that same baseline. -/
theorem update_integrates_every_sample (E : Platform α) (s : Wifibot α)
    (st st2 : driverData α) (now now2 : ℕ) (hpi : 0 < E.M_PI) (hL : 0 < s._entrax)
    (hth : |s._position.th| < TWOPI E) (hl : st.odometryLeft = s._odometryLeftLast)
    (hr : st.odometryRight = s._odometryRightLast) :
    (∀ (st3 : driverData α) (now3 : ℕ),
      (∃ a b c, published (update E s st3 now3).2
        = [Output.status a, Output.transform b, Output.odometry c]) ∧
      (update E s st3 now3).1._odometryLeftLast = st3.odometryLeft ∧
      (update E s st3 now3).1._odometryRightLast = st3.odometryRight ∧
      (update E s st3 now3).1._position
        = (computeOdometry E s st3.odometryLeft st3.odometryRight)._position) ∧
    (update E s st now).1._position = s._position ∧
    (update E s st now).1._odometryLeftLast = s._odometryLeftLast ∧
    (update E s st now).1._odometryRightLast = s._odometryRightLast ∧
    (update E (update E s st now).1 st2 now2).1._position
      = (computeOdometry E s st2.odometryLeft st2.odometryRight)._position ∧
    (update E (update E s st now).1 st2 now2).1._odometryLeftLast = st2.odometryLeft ∧
    (update E (update E s st now).1 st2 now2).1._odometryRightLast = st2.odometryRight := by
  have hsame : computeOdometry E s st.odometryLeft st.odometryRight = s := by
    rw [hl, hr]; exact computeOdometry_same_readings E hpi s hth
  refine ⟨fun st3 now3 => ⟨update_published E s st3 now3, rfl, rfl, rfl⟩, ?_, ?_, ?_, ?_,
    rfl, rfl⟩
  · rw [update_state, hsame]
  · rw [update_state, hsame]
  · rw [update_state, hsame]
  · rw [update_state, update_state, hsame]; rfl

/-- Witness of `update_integrates_every_sample`: the constructed state, a sample
that repeats the baseline `(0, 0)`, then the sample `(1, 1)`. -/
theorem update_integrates_every_sample_witness :
    0 < libmQ.M_PI ∧ 0 < startQ._entrax ∧ |startQ._position.th| < TWOPI libmQ ∧
    (sampleQ 0 0).odometryLeft = startQ._odometryLeftLast ∧
    (sampleQ 0 0).odometryRight = startQ._odometryRightLast ∧
    (update libmQ startQ (sampleQ 0 0) 1).1._position = startQ._position ∧
    (update libmQ (update libmQ startQ (sampleQ 0 0) 1).1 (sampleQ 1 1) 2).1._position
      = (computeOdometry libmQ startQ (sampleQ 1 1).odometryLeft
          (sampleQ 1 1).odometryRight)._position :=
  ⟨libmQ_pi_pos, by norm_num [startQ, new],
    by norm_num [startQ, new, TWOPI, libmQ], rfl, rfl,
    (update_integrates_every_sample libmQ startQ (sampleQ 0 0) (sampleQ 1 1) 1 2 libmQ_pi_pos
      (by norm_num [startQ, new]) (by norm_num [startQ, new, TWOPI, libmQ]) rfl rfl).2.1,
    (update_integrates_every_sample libmQ startQ (sampleQ 0 0) (sampleQ 1 1) 1 2 libmQ_pi_pos
      (by norm_num [startQ, new]) (by norm_num [startQ, new, TWOPI, libmQ]) rfl rfl).2.2.2.2.1⟩

/-- C10 fails at the accumulated heading `67108867 * M_PI`, that is 33554433.5
turns, inside the range of `int`: `(int)` gives 33554433, `(float)` rounds it to
33554432, and line 104 leaves `3 * M_PI`, which is not below `2 * M_PI` and is
above 2π. -/
theorem wrapHeading_float_rounding :
    |67108867 * libmQ.M_PI / TWOPI libmQ| < 2147483647 ∧
    castInt libmQ (67108867 * libmQ.M_PI / TWOPI libmQ) = 33554433 ∧
    castFloat 33554433 = 33554432 ∧
    wrapHeading libmQ (67108867 * libmQ.M_PI) = 3 * libmQ.M_PI ∧
    ¬ |wrapHeading libmQ (67108867 * libmQ.M_PI)| < TWOPI libmQ ∧
    2 * Real.pi < ((wrapHeading libmQ (67108867 * libmQ.M_PI) : ℚ) : ℝ) := by
  have hq : 67108867 * libmQ.M_PI / TWOPI libmQ = 67108867 / 2 := by
    norm_num [TWOPI, libmQ]
  refine ⟨?_, ?_, by decide, wrapHeading_libmQ_big, ?_, ?_⟩
  · rw [hq, abs_lt]; constructor <;> norm_num
  · have h0 : (0 : ℚ) ≤ 67108867 / 2 := by norm_num
    have hfl : ⌊(67108867 / 2 : ℚ)⌋ = 33554433 :=
      Int.floor_eq_iff.mpr ⟨by norm_num, by norm_num⟩
    rw [hq]
    simp [castInt, truncate_of_nonneg h0, hfl]
  · rw [wrapHeading_libmQ_big]
    norm_num [TWOPI, libmQ, abs_lt]
  · rw [wrapHeading_libmQ_big]
    have hpi := Real.pi_lt_d2
    have hv : (9 : ℝ) < ((3 * libmQ.M_PI : ℚ) : ℝ) := by
      norm_num [libmQ]
    linarith

end

end Wifibot
